import Mathlib

/-!
Shallow embedding of the texture-atlas packing engine of
`amulet_map_editor/amulet_wx/world_manager/extensions/amulet_renderer/textureatlas.py`,
together with proofs about its packing invariants, sizing heuristic, UV table
and build driver.

Conventions of the embedding:
* Python integers that are provably non-negative throughout the engine
  (coordinates, dimensions, pixel counts) are modelled as `Nat`; the one place
  where a negative intermediate value occurs (`(ceil(sqrt(pixels)) - 1)` for
  `pixels = 0`, fed to `int.bit_length`) goes through `Int` exactly as the
  source does.
* Mutation is modelled by explicit state passing: the region tree is an
  inductive value rebuilt by `pack`, and the mutable `Frame` objects live in a
  `Store` (a list indexed by frame id) threaded through the driver, which is
  how the source's aliasing of frames across retry attempts is preserved.
* `Frame.assignments` is a ghost field recording every write to the frame's
  `(x, y)` position; it influences no computation and exists to state
  lifecycle properties of the position fields.
* Exceptions (`AtlasTooSmall`) are modelled as an `Option String` error
  component carrying the message; the unbounded `while` retry loop of
  `create_atlas` takes an explicit attempt budget (`fuel`).
-/

/-- The size part of the source's `Packable`: a two-dimensional object.  The
source also carries mutable `x`, `y` fields, modelled separately (in the
region tree and in the frame store). -/
structure Packable where
  width : Nat
  height : Nat
deriving Repr, DecidableEq

/-- A rectangle whose position has been assigned by `PackRegion.pack`:
the state of a packed `Packable`. -/
structure PlacedRect where
  x : Nat
  y : Nat
  width : Nat
  height : Nat
deriving Repr, DecidableEq

/-- The source's `PackRegion`: `empty` is a region with `_packable is None`
(and hence no sub-regions); `node` holds the dimensions `pw × ph` of the
packed rectangle (placed at the region's own origin) plus the two sub-regions
created at packing time. -/
inductive PackRegion : Type where
  | empty (x y width height : Nat)
  | node (x y width height pw ph : Nat) (sub1 sub2 : PackRegion)
deriving Repr, DecidableEq

/-- Region origin x (property `PackRegion.x` in the source). -/
def PackRegion.rx : PackRegion → Nat
  | .empty x _ _ _ => x
  | .node x _ _ _ _ _ _ _ => x

/-- Region origin y (property `PackRegion.y` in the source). -/
def PackRegion.ry : PackRegion → Nat
  | .empty _ y _ _ => y
  | .node _ y _ _ _ _ _ _ => y

/-- Region width (property `PackRegion.width` in the source). -/
def PackRegion.rw : PackRegion → Nat
  | .empty _ _ w _ => w
  | .node _ _ w _ _ _ _ _ => w

/-- Region height (property `PackRegion.height` in the source). -/
def PackRegion.rh : PackRegion → Nat
  | .empty _ _ _ h => h
  | .node _ _ _ h _ _ _ _ => h

/-- The source's `PackRegion.pack`.  On success it returns the updated region
tree together with the `(x, y)` position assigned to the packable (the
source instead writes that position into the mutable packable); `none` is
the source's `return False`. -/
def PackRegion.pack : PackRegion → Packable → Option (PackRegion × Nat × Nat)
  | .empty x y w h, p =>
    if p.width > w ∨ p.height > h then
      none
    else
      some (.node x y w h p.width p.height
        (.empty x (y + p.height) p.width (h - p.height))
        (.empty (x + p.width) y (w - p.width) h), x, y)
  | .node x y w h pw ph s1 s2, p =>
    match s1.pack p with
    | some (s1', px, py) => some (.node x y w h pw ph s1' s2, px, py)
    | none =>
      match s2.pack p with
      | some (s2', px, py) => some (.node x y w h pw ph s1 s2', px, py)
      | none => none

/-- The source's `PackRegion.get_all_packables`: every packed rectangle in
this region and its sub-regions (each with the position the pack assigned,
which is the origin of the region it landed in). -/
def PackRegion.get_all_packables : PackRegion → List PlacedRect
  | .empty _ _ _ _ => []
  | .node x y _ _ pw ph s1 s2 =>
    ⟨x, y, pw, ph⟩ :: (s1.get_all_packables ++ s2.get_all_packables)

/-- Sequentially pack a list of packables into a region, failing if any
single `pack` returns false; this is the region-level content of a
successful atlas build (every frame packed via `PackRegion.pack`
returning true). -/
def packAll (r : PackRegion) : List Packable → Option PackRegion
  | [] => some r
  | p :: ps =>
    match r.pack p with
    | some res => packAll res.1 ps
    | none => none

/-- Membership of an integer point in the half-open box
`[x, x+width) × [y, y+height)` of a placed rectangle. -/
def PlacedRect.containsPt (q : PlacedRect) (px py : Nat) : Prop :=
  q.x ≤ px ∧ px < q.x + q.width ∧ q.y ≤ py ∧ py < q.y + q.height

/-- Two placed rectangles whose axis-aligned bounding boxes
`[x, x+width) × [y, y+height)` do not intersect. -/
def NoIntersect (a b : PlacedRect) : Prop :=
  ∀ px py : Nat, ¬(a.containsPt px py ∧ b.containsPt px py)

/-- The placed rectangle `q` lies inside the bounding box of region `r`. -/
def inRegionBox (r : PackRegion) (q : PlacedRect) : Prop :=
  r.rx ≤ q.x ∧ q.x + q.width ≤ r.rx + r.rw ∧
  r.ry ≤ q.y ∧ q.y + q.height ≤ r.ry + r.rh

/-- Structural well-formedness of a region tree, as established by the
source's constructor and preserved by `pack`: a packed rectangle fits in its
region, and the two sub-regions are exactly the guillotine split the source
creates (`sub1` below the placed rectangle at its width, `sub2` to the right
at full region height). -/
def PackRegion.wf : PackRegion → Prop
  | .empty _ _ _ _ => True
  | .node x y w h pw ph s1 s2 =>
      pw ≤ w ∧ ph ≤ h ∧
      s1.rx = x ∧ s1.ry = y + ph ∧ s1.rw = pw ∧ s1.rh = h - ph ∧
      s2.rx = x + pw ∧ s2.ry = y ∧ s2.rw = w - pw ∧ s2.rh = h ∧
      s1.wf ∧ s2.wf

/-- A decoded source image: natural pixel dimensions plus the channel value
`pix col row channel` of its RGBA pixels (what `PIL.Image.open` yields). -/
structure Img where
  width : Nat
  height : Nat
  pix : Nat → Nat → Nat → Nat

/-- The mutable state of a source `Frame` object: its file name, the
dimensions read from the decoded image, the current position fields (the
source's `Packable.__init__` initialises `_x` and `_y` to `0`), and the
ghost history `assignments` of every `(x, y)` write performed by a
successful `pack`. -/
structure Frame where
  filename : String
  width : Nat
  height : Nat
  x : Nat
  y : Nat
  assignments : List (Nat × Nat)
deriving Repr, DecidableEq, Inhabited

/-- The source's `Packable.perimeter` (`2*self._width + 2*self._height`). -/
def Frame.perimeter (f : Frame) : Nat := 2 * f.width + 2 * f.height

/-- The heap of live `Frame` objects of one `create_atlas` invocation,
indexed by frame id. -/
abbrev Store := List Frame

/-- Dereference a frame id (frame ids produced by the driver are always in
range, so the default is never read by reachable code). -/
def storeGet (s : Store) (i : Nat) : Frame := s.getD i default

/-- The effect of `self._packable.x = self._x; self._packable.y = self._y`
in `PackRegion.pack`: write the position fields of frame `i` and extend its
ghost assignment history. -/
def storeAssign (s : Store) (i px py : Nat) : Store :=
  s.set i
    (let f := storeGet s i
     { f with x := px, y := py, assignments := f.assignments ++ [(px, py)] })

/-- The source's `Texture`: a named collection of frames (here frame ids
into the store, preserving the source's object aliasing). -/
structure Texture where
  name : String
  frames : List Nat
deriving Repr, DecidableEq

/-- The source's `TextureAtlas`: a `PackRegion` rooted at `(0, 0)` of the
given dimensions plus the ordered list of textures passed to `pack`. -/
structure TextureAtlas where
  width : Nat
  height : Nat
  region : PackRegion
  textures : List Texture
deriving Repr, DecidableEq

/-- The `for frame in texture.frames` loop of `TextureAtlas.pack`: pack each
frame in order, recording assigned positions in the store; stop at the first
failure with the `AtlasTooSmall` message the source raises. -/
def packFrames : PackRegion → Store → List Nat → PackRegion × Store × Option String
  | r, s, [] => (r, s, none)
  | r, s, fid :: rest =>
    let f := storeGet s fid
    match r.pack ⟨f.width, f.height⟩ with
    | some (r', px, py) => packFrames r' (storeAssign s fid px py) rest
    | none => (r, s, some (String.append "Failed to pack frame " f.filename))

/-- The source's `TextureAtlas.pack`: append the texture to `self._textures`
(the source does this before packing any frame), then pack its frames,
raising `AtlasTooSmall` (the error component) at the first frame that does
not fit. -/
def TextureAtlas.pack (a : TextureAtlas) (s : Store) (t : Texture) :
    TextureAtlas × Store × Option String :=
  let res := packFrames a.region s t.frames
  ({ a with region := res.1, textures := a.textures ++ [t] }, res.2.1, res.2.2)

/-- The `for texture in textures: atlas.pack(texture)` loop of
`create_atlas`: the first raised `AtlasTooSmall` propagates (later textures
are not attempted). -/
def packTextures : TextureAtlas → Store → List Texture → TextureAtlas × Store × Option String
  | a, s, [] => (a, s, none)
  | a, s, t :: ts =>
    match a.pack s t with
    | (a', s', none) => packTextures a' s' ts
    | (a', s', some e) => (a', s', some e)

/-- The `while not atlas_created` retry loop of `create_atlas` with an
explicit attempt budget: each attempt packs into a fresh `TextureAtlas`
of the current size but keeps the mutated frame store (the source reuses
the same `Frame` objects), doubling the size after a failure.  Returns the
atlas, the final store and the successful size. -/
def packLoop : Nat → Store → List Texture → Nat → Option (TextureAtlas × Store × Nat)
  | 0, _, _, _ => none
  | fuel + 1, s, ts, size =>
    match packTextures ⟨size, size, .empty 0 0 size size, []⟩ s ts with
    | (a, s', none) => some (a, s', size)
    | (_, s', some _) => packLoop fuel s' ts (size * 2)

/-- The frame/texture construction loop of `create_atlas`: one single-frame
`Texture` per value of the input mapping, named after the path, with fresh
`Frame` objects (ids `i, i+1, ...`) whose dimensions come from the decoded
image and whose position fields start at `0`. -/
def buildFrames (i : Nat) (vals : List String) (images : String → Img) :
    Store × List Texture :=
  match vals with
  | [] => ([], [])
  | p :: rest =>
    let r := buildFrames (i + 1) rest images
    (⟨p, (images p).width, (images p).height, 0, 0, []⟩ :: r.1,
     ⟨p, [i]⟩ :: r.2)

/-- The sort key of `create_atlas`: `i.frames[0].perimeter`.  (The source
would raise `IndexError` on a frameless texture; the driver only builds
single-frame textures.) -/
def texKey (s : Store) (t : Texture) : Nat :=
  Frame.perimeter (storeGet s (t.frames.headD 0))

/-- Stable descending insertion by perimeter: the new texture goes before
the first texture whose key is less than or equal to its own, so textures
with equal keys keep their original relative order. -/
def insertPerimDesc (s : Store) (t : Texture) : List Texture → List Texture
  | [] => [t]
  | u :: us =>
    if texKey s u ≤ texKey s t then t :: u :: us else u :: insertPerimDesc s t us

/-- The source's `sorted(textures, key=lambda i: i.frames[0].perimeter,
reverse=True)`: a stable sort by perimeter in non-increasing order (any
stable descending sort computes the same list as Python's). -/
def sortPerimDesc (s : Store) : List Texture → List Texture
  | [] => []
  | t :: ts => insertPerimDesc s t (sortPerimDesc s ts)

/-- The measuring loop of `create_atlas` over the frames of one texture:
`height = max(f.height, height); width = max(f.width, width);
pixels += f.height * f.width`, accumulator `(height, width, pixels)`. -/
def measureFrames (s : Store) (acc : Nat × Nat × Nat) (fids : List Nat) :
    Nat × Nat × Nat :=
  fids.foldl (fun a fid =>
    let f := storeGet s fid
    (max f.height a.1, max f.width a.2.1, a.2.2 + f.height * f.width)) acc

/-- The measuring loop of `create_atlas` over all textures, starting from
`height = width = pixels = 0`. -/
def measureTextures (s : Store) (ts : List Texture) : Nat × Nat × Nat :=
  ts.foldl (fun a t => measureFrames s a t.frames) (0, 0, 0)

/-- Python's `int.bit_length` on a natural number, with explicit fuel to
keep the recursion structural: the number of bits needed to represent `n`,
i.e. the least `k` with `n < 2 ^ k`. -/
def bitLenAux : Nat → Nat → Nat
  | 0, _ => 0
  | fuel + 1, n => if n = 0 then 0 else bitLenAux fuel (n / 2) + 1

/-- Python's `int.bit_length` on a natural number. -/
def bitLen (n : Nat) : Nat := bitLenAux n n

/-- Upward search for the least `m` with `n ≤ m * m`, with explicit fuel to
keep the recursion structural. -/
def ceilSqrtGo (n : Nat) : Nat → Nat → Nat
  | 0, m => m
  | fuel + 1, m => if n ≤ m * m then m else ceilSqrtGo n fuel (m + 1)

/-- The exact ceiling of the real square root of `n`: the least `m` with
`n ≤ m * m`.  The source computes `math.ceil(pixels ** 0.5)` in binary64
floating point, which agrees with the exact value for every realisable
pixel count (the two can differ only beyond `2 ^ 52` total pixels). -/
def ceilSqrt (n : Nat) : Nat := ceilSqrtGo n n 0

/-- The power-of-two term `1 << (math.ceil(pixels ** 0.5) - 1).bit_length()`
of the sizing heuristic.  The subtraction is Python integer subtraction, so
it goes through `Int`: for `pixels = 0` the operand is `-1`, whose Python
`bit_length` is `1` (bit length of the absolute value). -/
def pow2Term (pixels : Nat) : Nat :=
  1 <<< bitLen (Int.natAbs ((ceilSqrt pixels : Int) - 1))

/-- The source's initial candidate size
`size = max(height, width, 1 << (math.ceil(pixels ** 0.5) - 1).bit_length())`. -/
def initial_size (maxHeight maxWidth pixels : Nat) : Nat :=
  max maxHeight (max maxWidth (pow2Term pixels))

/-- The UV tuple `to_dict` computes for one texture's first frame in an
atlas of dimensions `w × h`.  Python's float divisions are modelled as
exact rational divisions.  Note the source's v1 coordinate:
`(y + min(frame.height, frame.width)) / h`. -/
def uvEntry (w h : Nat) (f : Frame) : ℚ × ℚ × ℚ × ℚ :=
  ((f.x : ℚ) / (w : ℚ),
   (f.y : ℚ) / (h : ℚ),
   ((f.x : ℚ) + (f.width : ℚ)) / (w : ℚ),
   ((f.y : ℚ) + ((min f.height f.width : Nat) : ℚ)) / (h : ℚ))

/-- The source's `TextureAtlas.to_dict` before Python's dict comprehension
collapses duplicate names: the list of `(tex.name, uv-of-first-frame)` in
texture order.  (The source's `tex.frames[0]` would raise `IndexError` on a
frameless texture; the driver only builds single-frame textures.) -/
def TextureAtlas.to_dict (a : TextureAtlas) (s : Store) :
    List (String × (ℚ × ℚ × ℚ × ℚ)) :=
  a.textures.map fun t =>
    (t.name, uvEntry a.width a.height (storeGet s (t.frames.headD 0)))

/-- Lookup in a Python dict built by inserting the entries of `l` in order:
for a duplicated key the last inserted value wins. -/
def dictLookup {α : Type} (l : List (String × α)) (k : String) : Option α :=
  (l.reverse.find? fun e => e.1 == k).map Prod.snd

/-- One channel of the composite image `TextureAtlas.generate` produces:
a blank (all-zero) canvas into which every packed frame's decoded image is
pasted at the frame's current position, in pack order, later pastes
overwriting earlier ones. -/
def drawnPixel (s : Store) (images : String → Img) (ts : List Texture)
    (px py c : Nat) : Nat :=
  ts.foldl (fun acc t =>
    t.frames.foldl (fun acc2 fid =>
      let f := storeGet s fid
      if f.x ≤ px ∧ px < f.x + f.width ∧ f.y ≤ py ∧ py < f.y + f.height then
        (images f.filename).pix (px - f.x) (py - f.y) c
      else acc2) acc) 0

/-- The raw pixel buffer `numpy.array(atlas.generate('RGBA'),
numpy.uint8).ravel()`: row-major, top-left origin, 4 channels per pixel. -/
def generateBuffer (a : TextureAtlas) (s : Store) (images : String → Img) :
    List Nat :=
  (List.range a.height).flatMap fun y =>
    (List.range a.width).flatMap fun x =>
      (List.range 4).map fun c => drawnPixel s images a.textures x y c

/-- The state-level part of `create_atlas`: build frames and textures from
the values of the input mapping, sort by perimeter descending, compute the
initial size, and run the retry loop.  Returns the successful atlas, the
final frame store and the successful size. -/
def create_atlas_state (fuel : Nat) (textureDict : List (Nat × String))
    (images : String → Img) : Option (TextureAtlas × Store × Nat) :=
  let bf := buildFrames 0 (textureDict.map Prod.snd) images
  let ts := sortPerimDesc bf.1 bf.2
  let m := measureTextures bf.1 ts
  packLoop fuel bf.1 ts (initial_size m.1 m.2.1 m.2.2)

/-- The source's `create_atlas`: input is the (insertion-ordered) key/path
entries of `texture_dict` plus the decoded image for each path; output is
`(pixel buffer, texture bounds keyed by the caller's keys, width, height)`.
The bounds remap `{tex_id: texture_bounds[texture_path] for ...}` looks each
path up in the dict built from `to_dict` (last texture with that name wins);
the lookup is total in the source, hence the `Option` in each entry is
`some` for every reachable input. -/
def create_atlas (fuel : Nat) (textureDict : List (Nat × String))
    (images : String → Img) :
    Option (List Nat × List (Nat × Option (ℚ × ℚ × ℚ × ℚ)) × Nat × Nat) :=
  (create_atlas_state fuel textureDict images).map fun res =>
    let atlas := res.1
    let s := res.2.1
    let td := atlas.to_dict s
    (generateBuffer atlas s images,
     textureDict.map fun e => (e.1, dictLookup td e.2),
     atlas.width, atlas.height)

/-! ### Structural properties of `PackRegion.pack` -/

theorem pack_bounds {r : PackRegion} {p : Packable} {res : PackRegion × Nat × Nat}
    (h : r.pack p = some res) :
    res.1.rx = r.rx ∧ res.1.ry = r.ry ∧ res.1.rw = r.rw ∧ res.1.rh = r.rh := by
  cases r with
  | empty x y w hh =>
    simp only [PackRegion.pack] at h
    split at h
    · exact absurd h (by simp)
    · obtain rfl := Option.some.inj h
      exact ⟨rfl, rfl, rfl, rfl⟩
  | node x y w hh pw ph s1 s2 =>
    simp only [PackRegion.pack] at h
    rcases hp1 : s1.pack p with _ | ⟨s1', px1, py1⟩
    · rw [hp1] at h
      rcases hp2 : s2.pack p with _ | ⟨s2', px2, py2⟩
      · rw [hp2] at h; exact absurd h (by simp)
      · rw [hp2] at h
        obtain rfl := Option.some.inj h
        exact ⟨rfl, rfl, rfl, rfl⟩
    · rw [hp1] at h
      obtain rfl := Option.some.inj h
      exact ⟨rfl, rfl, rfl, rfl⟩

theorem pack_wf {r : PackRegion} {p : Packable} {res : PackRegion × Nat × Nat}
    (hwf : r.wf) (h : r.pack p = some res) : res.1.wf := by
  induction r generalizing res with
  | empty x y w hh =>
    simp only [PackRegion.pack] at h
    split at h
    · exact absurd h (by simp)
    · rename_i hfit
      obtain rfl := Option.some.inj h
      refine ⟨?_, ?_, rfl, rfl, rfl, rfl, rfl, rfl, rfl, rfl, trivial, trivial⟩ <;> omega
  | node x y w hh pw ph s1 s2 ih1 ih2 =>
    obtain ⟨h1le, h2le, e1x, e1y, e1w, e1h, e2x, e2y, e2w, e2h, hw1, hw2⟩ := hwf
    simp only [PackRegion.pack] at h
    rcases hp1 : s1.pack p with _ | ⟨s1', px1, py1⟩
    · rw [hp1] at h
      rcases hp2 : s2.pack p with _ | ⟨s2', px2, py2⟩
      · rw [hp2] at h; exact absurd h (by simp)
      · rw [hp2] at h
        obtain rfl := Option.some.inj h
        obtain ⟨b1, b2, b3, b4⟩ := pack_bounds hp2
        exact ⟨h1le, h2le, e1x, e1y, e1w, e1h, b1.trans e2x, b2.trans e2y,
               b3.trans e2w, b4.trans e2h, hw1, ih2 hw2 hp2⟩
    · rw [hp1] at h
      obtain rfl := Option.some.inj h
      obtain ⟨b1, b2, b3, b4⟩ := pack_bounds hp1
      exact ⟨h1le, h2le, b1.trans e1x, b2.trans e1y, b3.trans e1w, b4.trans e1h,
             e2x, e2y, e2w, e2h, ih1 hw1 hp1, hw2⟩

theorem wf_contained {r : PackRegion} (hwf : r.wf) :
    ∀ q ∈ r.get_all_packables, inRegionBox r q := by
  induction r with
  | empty x y w hh => intro q hq; simp [PackRegion.get_all_packables] at hq
  | node x y w hh pw ph s1 s2 ih1 ih2 =>
    obtain ⟨h1le, h2le, e1x, e1y, e1w, e1h, e2x, e2y, e2w, e2h, hw1, hw2⟩ := hwf
    intro q hq
    simp only [PackRegion.get_all_packables, List.mem_cons, List.mem_append] at hq
    simp only [inRegionBox, PackRegion.rx, PackRegion.ry, PackRegion.rw, PackRegion.rh]
    rcases hq with rfl | hq | hq
    · simp only []
      omega
    · have hc := ih1 hw1 q hq
      simp only [inRegionBox] at hc
      rw [e1x, e1y, e1w, e1h] at hc
      omega
    · have hc := ih2 hw2 q hq
      simp only [inRegionBox] at hc
      rw [e2x, e2y, e2w, e2h] at hc
      omega

theorem noIntersect_of_separated {a b : PlacedRect}
    (h : a.x + a.width ≤ b.x ∨ b.x + b.width ≤ a.x ∨
         a.y + a.height ≤ b.y ∨ b.y + b.height ≤ a.y) :
    NoIntersect a b := by
  intro px py hc
  obtain ⟨⟨ha1, ha2, ha3, ha4⟩, hb1, hb2, hb3, hb4⟩ := hc
  omega

theorem wf_pairwise {r : PackRegion} (hwf : r.wf) :
    r.get_all_packables.Pairwise NoIntersect := by
  induction r with
  | empty x y w hh => simp [PackRegion.get_all_packables]
  | node x y w hh pw ph s1 s2 ih1 ih2 =>
    obtain ⟨h1le, h2le, e1x, e1y, e1w, e1h, e2x, e2y, e2w, e2h, hw1, hw2⟩ := hwf
    simp only [PackRegion.get_all_packables, List.pairwise_cons, List.pairwise_append,
      List.mem_append]
    refine ⟨?_, ih1 hw1, ih2 hw2, ?_⟩
    · intro q hq
      rcases hq with hq | hq
      · have hc := wf_contained hw1 q hq
        simp only [inRegionBox] at hc
        rw [e1x, e1y, e1w, e1h] at hc
        apply noIntersect_of_separated
        simp only []
        omega
      · have hc := wf_contained hw2 q hq
        simp only [inRegionBox] at hc
        rw [e2x, e2y, e2w, e2h] at hc
        apply noIntersect_of_separated
        simp only []
        omega
    · intro q1 hq1 q2 hq2
      have hc1 := wf_contained hw1 q1 hq1
      have hc2 := wf_contained hw2 q2 hq2
      simp only [inRegionBox] at hc1 hc2
      rw [e1x, e1y, e1w, e1h] at hc1
      rw [e2x, e2y, e2w, e2h] at hc2
      apply noIntersect_of_separated
      omega

theorem packAll_wf : ∀ (ps : List Packable) {r r' : PackRegion},
    r.wf → packAll r ps = some r' → r'.wf := by
  intro ps
  induction ps with
  | nil =>
    intro r r' hw h
    obtain rfl := Option.some.inj h
    exact hw
  | cons p ps ih =>
    intro r r' hw h
    simp only [packAll] at h
    rcases hp : r.pack p with _ | res
    · rw [hp] at h; exact absurd h (by simp)
    · rw [hp] at h
      exact ih (pack_wf hw hp) h

theorem packAll_bounds : ∀ (ps : List Packable) {r r' : PackRegion},
    packAll r ps = some r' →
    r'.rx = r.rx ∧ r'.ry = r.ry ∧ r'.rw = r.rw ∧ r'.rh = r.rh := by
  intro ps
  induction ps with
  | nil =>
    intro r r' h
    obtain rfl := Option.some.inj h
    exact ⟨rfl, rfl, rfl, rfl⟩
  | cons p ps ih =>
    intro r r' h
    simp only [packAll] at h
    rcases hp : r.pack p with _ | res
    · rw [hp] at h; exact absurd h (by simp)
    · rw [hp] at h
      obtain ⟨b1, b2, b3, b4⟩ := pack_bounds hp
      obtain ⟨c1, c2, c3, c4⟩ := ih h
      exact ⟨c1.trans b1, c2.trans b2, c3.trans b3, c4.trans b4⟩

/-- C3: `PackRegion.pack` on an empty region places the rectangle at the
region's `(x, y)` and creates exactly the two sub-regions
`sub1 = (x, y + p.height, p.width, height - p.height)` and
`sub2 = (x + p.width, y, width - p.width, height)` when the rectangle fits,
fails when it does not fit, and on an occupied region tries `sub1` first,
then `sub2` only if `sub1` failed, succeeding exactly when one of them
succeeds. -/
theorem pack_case_analysis (x y w h pw ph : Nat) (p : Packable) (s1 s2 : PackRegion) :
    ((PackRegion.empty x y w h).pack p =
      if p.width ≤ w ∧ p.height ≤ h then
        some (PackRegion.node x y w h p.width p.height
          (PackRegion.empty x (y + p.height) p.width (h - p.height))
          (PackRegion.empty (x + p.width) y (w - p.width) h), x, y)
      else none)
    ∧ ((PackRegion.node x y w h pw ph s1 s2).pack p =
        match s1.pack p with
        | some (s1', px, py) => some (PackRegion.node x y w h pw ph s1' s2, px, py)
        | none =>
          match s2.pack p with
          | some (s2', px, py) => some (PackRegion.node x y w h pw ph s1 s2', px, py)
          | none => none)
    ∧ (((PackRegion.node x y w h pw ph s1 s2).pack p).isSome
        = ((s1.pack p).isSome || (s2.pack p).isSome)) := by
  refine ⟨?_, rfl, ?_⟩
  · simp only [PackRegion.pack]
    by_cases hc : p.width ≤ w ∧ p.height ≤ h
    · rw [if_pos hc, if_neg (by omega)]
    · rw [if_neg hc, if_pos (by omega)]
  · simp only [PackRegion.pack]
    rcases hp1 : s1.pack p with _ | ⟨s1', px1, py1⟩
    · rcases hp2 : s2.pack p with _ | ⟨s2', px2, py2⟩ <;> simp
    · simp

/-- C1: in every region tree reachable from an atlas root by a sequence of
`PackRegion.pack` calls that all returned true, the axis-aligned bounding
boxes `[x, x + width) × [y, y + height)` of the packed rectangles are
pairwise non-intersecting. -/
theorem packed_rectangles_no_overlap (size : Nat) (ps : List Packable) (r : PackRegion)
    (h : packAll (PackRegion.empty 0 0 size size) ps = some r) :
    r.get_all_packables.Pairwise NoIntersect :=
  wf_pairwise (packAll_wf ps (show (PackRegion.empty 0 0 size size).wf from trivial) h)

theorem packed_rectangles_no_overlap_witness :
    (PackRegion.node 0 0 4 4 2 2
      (PackRegion.node 0 2 2 2 2 2 (PackRegion.empty 0 4 2 0) (PackRegion.empty 2 2 0 2))
      (PackRegion.empty 2 0 2 4)).get_all_packables.Pairwise NoIntersect :=
  packed_rectangles_no_overlap 4 [⟨2, 2⟩, ⟨2, 2⟩] _ (by decide)

/-- C2: every rectangle packed into an atlas region rooted at `(0, 0)` with
width and height `size` lies fully within `[0, size) × [0, size)`. -/
theorem packed_rectangles_within_atlas (size : Nat) (ps : List Packable)
    (r : PackRegion) (q : PlacedRect)
    (h : packAll (PackRegion.empty 0 0 size size) ps = some r)
    (hq : q ∈ r.get_all_packables) :
    0 ≤ q.x ∧ 0 ≤ q.y ∧ q.x + q.width ≤ size ∧ q.y + q.height ≤ size := by
  have hwf := packAll_wf ps (show (PackRegion.empty 0 0 size size).wf from trivial) h
  obtain ⟨b1, b2, b3, b4⟩ := packAll_bounds ps h
  have hc := wf_contained hwf q hq
  simp only [inRegionBox] at hc
  rw [b1, b2, b3, b4] at hc
  simp only [PackRegion.rx, PackRegion.ry, PackRegion.rw, PackRegion.rh] at hc
  omega

theorem packed_rectangles_within_atlas_witness :
    0 ≤ (⟨0, 2, 2, 2⟩ : PlacedRect).x ∧ 0 ≤ (⟨0, 2, 2, 2⟩ : PlacedRect).y ∧
    (⟨0, 2, 2, 2⟩ : PlacedRect).x + (⟨0, 2, 2, 2⟩ : PlacedRect).width ≤ 4 ∧
    (⟨0, 2, 2, 2⟩ : PlacedRect).y + (⟨0, 2, 2, 2⟩ : PlacedRect).height ≤ 4 :=
  packed_rectangles_within_atlas 4 [⟨2, 2⟩, ⟨2, 2⟩]
    (PackRegion.node 0 0 4 4 2 2
      (PackRegion.node 0 2 2 2 2 2 (PackRegion.empty 0 4 2 0) (PackRegion.empty 2 2 0 2))
      (PackRegion.empty 2 0 2 4))
    ⟨0, 2, 2, 2⟩ (by decide) (by decide)

/-- C9 (amended): within one region tree, a successful `pack` assigns a
position to exactly the one rectangle being packed and leaves every
previously placed rectangle where it was; re-assignment of a frame's
position happens only because the driver's retry loop packs the same frame
objects again into a fresh atlas, which may give them different positions. -/
theorem pack_preserves_placements {r : PackRegion} {p : Packable}
    {res : PackRegion × Nat × Nat} (h : r.pack p = some res) :
    res.1.get_all_packables.Perm
      (⟨res.2.1, res.2.2, p.width, p.height⟩ :: r.get_all_packables) := by
  induction r generalizing res with
  | empty x y w hh =>
    simp only [PackRegion.pack] at h
    split at h
    · exact absurd h (by simp)
    · obtain rfl := Option.some.inj h
      simp [PackRegion.get_all_packables]
  | node x y w hh pw ph s1 s2 ih1 ih2 =>
    simp only [PackRegion.pack] at h
    rcases hp1 : s1.pack p with _ | ⟨s1', px1, py1⟩
    · rw [hp1] at h
      rcases hp2 : s2.pack p with _ | ⟨s2', px2, py2⟩
      · rw [hp2] at h; exact absurd h (by simp)
      · rw [hp2] at h
        obtain rfl := Option.some.inj h
        have ihp := ih2 hp2
        have step1 :
            (⟨x, y, pw, ph⟩ ::
              (s1.get_all_packables ++ s2'.get_all_packables) : List PlacedRect).Perm
            (⟨x, y, pw, ph⟩ ::
              (s1.get_all_packables ++
                (⟨px2, py2, p.width, p.height⟩ :: s2.get_all_packables))) :=
          (ihp.append_left _).cons _
        have step2 :
            (⟨x, y, pw, ph⟩ ::
              (s1.get_all_packables ++
                (⟨px2, py2, p.width, p.height⟩ :: s2.get_all_packables)) :
                  List PlacedRect).Perm
            (⟨x, y, pw, ph⟩ :: ⟨px2, py2, p.width, p.height⟩ ::
              (s1.get_all_packables ++ s2.get_all_packables)) :=
          List.Perm.cons _ List.perm_middle
        have step3 :
            (⟨x, y, pw, ph⟩ :: ⟨px2, py2, p.width, p.height⟩ ::
              (s1.get_all_packables ++ s2.get_all_packables) : List PlacedRect).Perm
            (⟨px2, py2, p.width, p.height⟩ :: ⟨x, y, pw, ph⟩ ::
              (s1.get_all_packables ++ s2.get_all_packables)) :=
          List.Perm.swap _ _ _
        exact (step1.trans step2).trans step3
    · rw [hp1] at h
      obtain rfl := Option.some.inj h
      have ihp := ih1 hp1
      have step1 :
          (⟨x, y, pw, ph⟩ ::
            (s1'.get_all_packables ++ s2.get_all_packables) : List PlacedRect).Perm
          (⟨x, y, pw, ph⟩ ::
            ((⟨px1, py1, p.width, p.height⟩ :: s1.get_all_packables) ++
              s2.get_all_packables)) :=
        (ihp.append_right _).cons _
      have step2 :
          (⟨x, y, pw, ph⟩ ::
            ((⟨px1, py1, p.width, p.height⟩ :: s1.get_all_packables) ++
              s2.get_all_packables) : List PlacedRect).Perm
          (⟨px1, py1, p.width, p.height⟩ :: ⟨x, y, pw, ph⟩ ::
            (s1.get_all_packables ++ s2.get_all_packables)) :=
        List.Perm.swap _ _ _
      exact step1.trans step2

theorem pack_preserves_placements_witness :
    (PackRegion.node 0 0 4 4 2 2
      (PackRegion.node 0 2 2 2 2 2 (PackRegion.empty 0 4 2 0) (PackRegion.empty 2 2 0 2))
      (PackRegion.empty 2 0 2 4)).get_all_packables.Perm
      (⟨0, 2, (2 : Nat), (2 : Nat)⟩ ::
        (PackRegion.node 0 0 4 4 2 2 (PackRegion.empty 0 2 2 2)
          (PackRegion.empty 2 0 2 4)).get_all_packables) :=
  @pack_preserves_placements
    (PackRegion.node 0 0 4 4 2 2 (PackRegion.empty 0 2 2 2) (PackRegion.empty 2 0 2 4))
    ⟨2, 2⟩
    (PackRegion.node 0 0 4 4 2 2
      (PackRegion.node 0 2 2 2 2 2 (PackRegion.empty 0 4 2 0) (PackRegion.empty 2 2 0 2))
      (PackRegion.empty 2 0 2 4), 0, 2)
    (by decide)

/-- C9 counterexample: in the run of `create_atlas` on three textures of
sizes 4 x 7, 4 x 4 and 5 x 3, the first size attempt (8) packs the first two
frames and then fails, and the retry at size 16 re-assigns positions to the
same frame objects; frame 1 (the 4 x 4 image) has its position assigned
twice, first `(4, 0)` and then `(0, 7)` — it is repositioned, refuting that
positions are assigned exactly once per `create_atlas` invocation. -/
theorem frame_reassigned_on_retry :
    (create_atlas_state 8 [(0, "p1"), (1, "p2"), (2, "p3")]
      (fun p => if p = "p1" then ⟨4, 7, fun _ _ _ => 0⟩
        else if p = "p2" then ⟨4, 4, fun _ _ _ => 0⟩
        else ⟨5, 3, fun _ _ _ => 0⟩)).map
      (fun r => (storeGet r.2.1 1).assignments) = some [(4, 0), (0, 7)] := by
  decide

/-- C5 (amended): `TextureAtlas.pack` appends the texture to the packed
sequence unconditionally, before attempting to pack any of its frames, and
raises `AtlasTooSmall` immediately at the first frame that does not fit
(later frames are not attempted, region and store are left as they were);
on failure the texture therefore remains in the packed sequence of the
abandoned atlas, which the driver then discards whole. -/
theorem atlas_pack_appends_before_packing (a : TextureAtlas) (s : Store) (t : Texture)
    (r : PackRegion) (u : Store) (i : Nat) (l : List Nat)
    (hfail : r.pack ⟨(storeGet u i).width, (storeGet u i).height⟩ = none) :
    ((a.pack s t).1.textures = a.textures ++ [t])
    ∧ packFrames r u (i :: l)
        = (r, u, some (String.append "Failed to pack frame " (storeGet u i).filename)) := by
  refine ⟨rfl, ?_⟩
  simp only [packFrames, hfail]

theorem atlas_pack_appends_before_packing_witness :
    ((TextureAtlas.pack ⟨1, 1, PackRegion.empty 0 0 1 1, []⟩ [⟨"f", 2, 2, 0, 0, []⟩]
        ⟨"f", [0]⟩).1.textures = ([] : List Texture) ++ [⟨"f", [0]⟩])
    ∧ packFrames (PackRegion.empty 0 0 1 1) [⟨"f", 2, 2, 0, 0, []⟩] [0]
        = (PackRegion.empty 0 0 1 1, [⟨"f", 2, 2, 0, 0, []⟩],
           some (String.append "Failed to pack frame "
             (storeGet [⟨"f", 2, 2, 0, 0, []⟩] 0).filename)) :=
  atlas_pack_appends_before_packing ⟨1, 1, PackRegion.empty 0 0 1 1, []⟩
    [⟨"f", 2, 2, 0, 0, []⟩] ⟨"f", [0]⟩ (PackRegion.empty 0 0 1 1)
    [⟨"f", 2, 2, 0, 0, []⟩] 0 [] (by decide)

/-- C5 counterexample: packing a texture whose single 2 x 2 frame cannot fit
into a 1 x 1 atlas raises `AtlasTooSmall` (the error is `some`), yet the
texture IS in the atlas's packed sequence afterwards, because the source
appends before packing any frame; this refutes the claim that a texture is
appended only if all of its frames packed successfully. -/
theorem texture_in_sequence_after_failure :
    ((TextureAtlas.pack ⟨1, 1, PackRegion.empty 0 0 1 1, []⟩ [⟨"f", 2, 2, 0, 0, []⟩]
        ⟨"f", [0]⟩).2.2).isSome = true
    ∧ (TextureAtlas.pack ⟨1, 1, PackRegion.empty 0 0 1 1, []⟩ [⟨"f", 2, 2, 0, 0, []⟩]
        ⟨"f", [0]⟩).1.textures = [⟨"f", [0]⟩] :=
  ⟨rfl, rfl⟩

/-- C4: the pair `to_dict` records for a packed texture with first frame `f`
in an atlas of dimensions `W × H` is exactly
`(f.x / W, f.y / H, (f.x + f.width) / W, (f.y + min f.height f.width) / H)`:
the v1 coordinate uses `min(height, width)`, not `height`. -/
theorem to_dict_entry (a : TextureAtlas) (s : Store) (t : Texture)
    (ht : t ∈ a.textures) :
    (t.name,
      (((storeGet s (t.frames.headD 0)).x : ℚ) / (a.width : ℚ),
       ((storeGet s (t.frames.headD 0)).y : ℚ) / (a.height : ℚ),
       (((storeGet s (t.frames.headD 0)).x : ℚ)
         + ((storeGet s (t.frames.headD 0)).width : ℚ)) / (a.width : ℚ),
       (((storeGet s (t.frames.headD 0)).y : ℚ)
         + ((min (storeGet s (t.frames.headD 0)).height
              (storeGet s (t.frames.headD 0)).width : Nat) : ℚ)) / (a.height : ℚ)))
      ∈ a.to_dict s :=
  List.mem_map.mpr ⟨t, ht, rfl⟩

theorem to_dict_entry_witness :
    ((⟨"p", [0]⟩ : Texture).name,
      (((storeGet [⟨"p", 1, 1, 0, 0, [(0, 0)]⟩] ((⟨"p", [0]⟩ : Texture).frames.headD 0)).x : ℚ)
         / ((2 : Nat) : ℚ),
       ((storeGet [⟨"p", 1, 1, 0, 0, [(0, 0)]⟩] ((⟨"p", [0]⟩ : Texture).frames.headD 0)).y : ℚ)
         / ((2 : Nat) : ℚ),
       (((storeGet [⟨"p", 1, 1, 0, 0, [(0, 0)]⟩] ((⟨"p", [0]⟩ : Texture).frames.headD 0)).x : ℚ)
         + ((storeGet [⟨"p", 1, 1, 0, 0, [(0, 0)]⟩]
              ((⟨"p", [0]⟩ : Texture).frames.headD 0)).width : ℚ)) / ((2 : Nat) : ℚ),
       (((storeGet [⟨"p", 1, 1, 0, 0, [(0, 0)]⟩] ((⟨"p", [0]⟩ : Texture).frames.headD 0)).y : ℚ)
         + ((min (storeGet [⟨"p", 1, 1, 0, 0, [(0, 0)]⟩]
                   ((⟨"p", [0]⟩ : Texture).frames.headD 0)).height
                 (storeGet [⟨"p", 1, 1, 0, 0, [(0, 0)]⟩]
                   ((⟨"p", [0]⟩ : Texture).frames.headD 0)).width : Nat) : ℚ))
         / ((2 : Nat) : ℚ)))
      ∈ TextureAtlas.to_dict
          ⟨2, 2, PackRegion.node 0 0 2 2 1 1 (PackRegion.empty 0 1 1 1)
            (PackRegion.empty 1 0 1 2), [⟨"p", [0]⟩]⟩
          [⟨"p", 1, 1, 0, 0, [(0, 0)]⟩] :=
  to_dict_entry
    ⟨2, 2, PackRegion.node 0 0 2 2 1 1 (PackRegion.empty 0 1 1 1)
      (PackRegion.empty 1 0 1 2), [⟨"p", [0]⟩]⟩
    [⟨"p", 1, 1, 0, 0, [(0, 0)]⟩] ⟨"p", [0]⟩ (by decide)

/-- C10: for the empty input mapping `create_atlas` does not raise: the
total pixel area is 0, the power-of-two term evaluates to
`1 << (-1).bit_length() = 2`, the size computation yields 2, the packing
loop succeeds on its first attempt (one unit of fuel suffices) with no
textures, and the result is an empty UV table, atlas width = height = 2,
and a blank 2*2*4 = 16-byte RGBA pixel buffer. -/
theorem create_atlas_empty_input (images : String → Img) :
    create_atlas 1 [] images = some (List.replicate 16 0, [], 2, 2)
    ∧ initial_size 0 0 0 = 2
    ∧ 1 <<< bitLen (Int.natAbs ((ceilSqrt 0 : Int) - 1)) = 2 :=
  ⟨rfl, rfl, rfl⟩

/-- C8 counterexample: the code contains no dimension validation — feeding
an image that decodes to size 0 x 0 does not fail and no `InvalidDimensions`
error exists: `create_atlas` succeeds and produces an atlas, refuting the
claim that the build fails and no atlas is produced. -/
theorem zero_dimension_image_builds :
    (create_atlas 8 [(0, "z")] (fun _ => ⟨0, 0, fun _ _ _ => 0⟩)).isSome = true := by
  decide

theorem storeAssign_dims (u : Store) (i px py j : Nat) :
    (storeGet (storeAssign u i px py) j).width = (storeGet u j).width
    ∧ (storeGet (storeAssign u i px py) j).height = (storeGet u j).height := by
  simp only [storeGet, storeAssign, List.getD_eq_getElem?_getD, List.getElem?_set]
  by_cases hij : i = j
  · subst hij
    by_cases hlen : i < u.length
    · simp [hlen, storeGet, List.getD_eq_getElem?_getD]
    · rw [if_pos rfl, if_neg hlen, List.getElem?_eq_none (by omega)]
      exact ⟨rfl, rfl⟩
  · simp [hij]

theorem pack_zero_dims (p : Packable) (hw : p.width = 0) (hh : p.height = 0) :
    ∀ (r : PackRegion), (r.pack p).isSome = true := by
  intro r
  induction r with
  | empty x y w h0 =>
    simp only [PackRegion.pack]
    rw [if_neg (by omega)]
    rfl
  | node x y w h0 pw ph s1 s2 ih1 ih2 =>
    simp only [PackRegion.pack]
    rcases hp1 : s1.pack p with _ | r1
    · rw [hp1] at ih1
      exact absurd ih1 (by simp)
    · obtain ⟨r1', px1, py1⟩ := r1
      simp

theorem packFrames_zero_dims :
    ∀ (l : List Nat) (r : PackRegion) (u : Store),
      (∀ j, (storeGet u j).width = 0 ∧ (storeGet u j).height = 0) →
      (packFrames r u l).2.2 = none
      ∧ (∀ j, (storeGet (packFrames r u l).2.1 j).width = 0
          ∧ (storeGet (packFrames r u l).2.1 j).height = 0) := by
  intro l
  induction l with
  | nil => intro r u hz; exact ⟨rfl, hz⟩
  | cons i l ih =>
    intro r u hz
    have hs := pack_zero_dims ⟨(storeGet u i).width, (storeGet u i).height⟩
      (hz i).1 (hz i).2 r
    rcases hp : r.pack ⟨(storeGet u i).width, (storeGet u i).height⟩ with _ | res
    · rw [hp] at hs; exact absurd hs (by simp)
    · obtain ⟨r', px, py⟩ := res
      have hz' : ∀ j, (storeGet (storeAssign u i px py) j).width = 0
          ∧ (storeGet (storeAssign u i px py) j).height = 0 := by
        intro j
        obtain ⟨d1, d2⟩ := storeAssign_dims u i px py j
        exact ⟨d1.trans (hz j).1, d2.trans (hz j).2⟩
      have hstep : packFrames r u (i :: l) = packFrames r' (storeAssign u i px py) l := by
        simp only [packFrames, hp]
      rw [hstep]
      exact ih r' (storeAssign u i px py) hz'

theorem packTextures_zero_dims :
    ∀ (ts : List Texture) (a : TextureAtlas) (u : Store),
      (∀ j, (storeGet u j).width = 0 ∧ (storeGet u j).height = 0) →
      (packTextures a u ts).2.2 = none := by
  intro ts
  induction ts with
  | nil => intro a u hz; rfl
  | cons t ts ih =>
    intro a u hz
    obtain ⟨he, hz'⟩ := packFrames_zero_dims t.frames a.region u hz
    rcases hp : a.pack u t with ⟨a1, s1, err⟩
    have h0 : (a.pack u t).2.2 = (packFrames a.region u t.frames).2.2 := rfl
    have h1 : (a.pack u t).2.1 = (packFrames a.region u t.frames).2.1 := rfl
    rw [hp] at h0 h1
    simp only at h0 h1
    subst h0 h1
    simp only [packTextures, hp, he]
    exact ih a1 _ hz'

theorem buildFrames_zero_dims (images : String → Img)
    (hz : ∀ q, (images q).width = 0 ∧ (images q).height = 0) :
    ∀ (vals : List String) (i j : Nat),
      (storeGet (buildFrames i vals images).1 j).width = 0
      ∧ (storeGet (buildFrames i vals images).1 j).height = 0 := by
  intro vals
  induction vals with
  | nil => intro i j; exact ⟨rfl, rfl⟩
  | cons q vals ih =>
    intro i j
    cases j with
    | zero => simpa [buildFrames, storeGet] using hz q
    | succ j => simpa [buildFrames, storeGet] using ih (i + 1) j

/-- C8 (amended): the code performs no dimension validation and contains no
`InvalidDimensions` error: a zero-sized rectangle satisfies the fit check of
every region, so a build whose images all decode to zero width and height
succeeds on the first attempt and produces an atlas. -/
theorem zero_size_build_succeeds (fuel : Nat) (dict : List (Nat × String))
    (images : String → Img) (hfuel : 1 ≤ fuel)
    (hz : ∀ q, (images q).width = 0 ∧ (images q).height = 0) :
    (create_atlas fuel dict images).isSome = true := by
  rw [create_atlas, Option.isSome_map']
  rw [create_atlas_state]
  obtain ⟨k, rfl⟩ : ∃ k, fuel = k + 1 := ⟨fuel - 1, by omega⟩
  simp only [packLoop]
  have hzs := buildFrames_zero_dims images hz (dict.map Prod.snd) 0
  have he := packTextures_zero_dims
    (sortPerimDesc (buildFrames 0 (dict.map Prod.snd) images).1
      (buildFrames 0 (dict.map Prod.snd) images).2)
    ⟨initial_size (measureTextures (buildFrames 0 (dict.map Prod.snd) images).1
        (sortPerimDesc (buildFrames 0 (dict.map Prod.snd) images).1
          (buildFrames 0 (dict.map Prod.snd) images).2)).1
      (measureTextures (buildFrames 0 (dict.map Prod.snd) images).1
        (sortPerimDesc (buildFrames 0 (dict.map Prod.snd) images).1
          (buildFrames 0 (dict.map Prod.snd) images).2)).2.1
      (measureTextures (buildFrames 0 (dict.map Prod.snd) images).1
        (sortPerimDesc (buildFrames 0 (dict.map Prod.snd) images).1
          (buildFrames 0 (dict.map Prod.snd) images).2)).2.2,
     initial_size (measureTextures (buildFrames 0 (dict.map Prod.snd) images).1
        (sortPerimDesc (buildFrames 0 (dict.map Prod.snd) images).1
          (buildFrames 0 (dict.map Prod.snd) images).2)).1
      (measureTextures (buildFrames 0 (dict.map Prod.snd) images).1
        (sortPerimDesc (buildFrames 0 (dict.map Prod.snd) images).1
          (buildFrames 0 (dict.map Prod.snd) images).2)).2.1
      (measureTextures (buildFrames 0 (dict.map Prod.snd) images).1
        (sortPerimDesc (buildFrames 0 (dict.map Prod.snd) images).1
          (buildFrames 0 (dict.map Prod.snd) images).2)).2.2,
     PackRegion.empty 0 0
       (initial_size (measureTextures (buildFrames 0 (dict.map Prod.snd) images).1
          (sortPerimDesc (buildFrames 0 (dict.map Prod.snd) images).1
            (buildFrames 0 (dict.map Prod.snd) images).2)).1
        (measureTextures (buildFrames 0 (dict.map Prod.snd) images).1
          (sortPerimDesc (buildFrames 0 (dict.map Prod.snd) images).1
            (buildFrames 0 (dict.map Prod.snd) images).2)).2.1
        (measureTextures (buildFrames 0 (dict.map Prod.snd) images).1
          (sortPerimDesc (buildFrames 0 (dict.map Prod.snd) images).1
            (buildFrames 0 (dict.map Prod.snd) images).2)).2.2)
       (initial_size (measureTextures (buildFrames 0 (dict.map Prod.snd) images).1
          (sortPerimDesc (buildFrames 0 (dict.map Prod.snd) images).1
            (buildFrames 0 (dict.map Prod.snd) images).2)).1
        (measureTextures (buildFrames 0 (dict.map Prod.snd) images).1
          (sortPerimDesc (buildFrames 0 (dict.map Prod.snd) images).1
            (buildFrames 0 (dict.map Prod.snd) images).2)).2.1
        (measureTextures (buildFrames 0 (dict.map Prod.snd) images).1
          (sortPerimDesc (buildFrames 0 (dict.map Prod.snd) images).1
            (buildFrames 0 (dict.map Prod.snd) images).2)).2.2), []⟩
    (buildFrames 0 (dict.map Prod.snd) images).1 hzs
  rcases hres : packTextures _ _ _ with ⟨a, s', err⟩
  rw [hres] at he
  simp only at he
  subst he
  simp

theorem zero_size_build_succeeds_witness :
    (create_atlas 1 [(5, "a"), (6, "b")] (fun _ => ⟨0, 0, fun _ _ _ => 0⟩)).isSome = true :=
  zero_size_build_succeeds 1 [(5, "a"), (6, "b")] (fun _ => ⟨0, 0, fun _ _ _ => 0⟩)
    (by decide) (fun _ => ⟨rfl, rfl⟩)

/-- C6 counterexample: two keys mapping to the same path produce two
independently packed textures at distinct positions, but both keys receive
the SAME UV entry — `to_dict` builds a dict keyed by texture name (the
path), so the second texture's tuple overwrites the first, and both keys
remap to it — refuting the claim that the table contains two distinct,
non-overlapping UV entries for the two keys. -/
theorem duplicate_path_shared_uv_entry :
    (create_atlas 8 [(1, "p"), (2, "p")] (fun _ => ⟨1, 1, fun _ _ _ => 0⟩)).map
        (fun r => r.2.1)
      = some [(1, some ((0 : ℚ), (1 : ℚ)/2, (1 : ℚ)/2, (1 : ℚ))),
              (2, some ((0 : ℚ), (1 : ℚ)/2, (1 : ℚ)/2, (1 : ℚ)))] := by
  have hst : create_atlas_state 8 [(1, "p"), (2, "p")] (fun _ => ⟨1, 1, fun _ _ _ => 0⟩)
      = some (⟨2, 2,
          PackRegion.node 0 0 2 2 1 1
            (PackRegion.node 0 1 1 1 1 1 (PackRegion.empty 0 2 1 0)
              (PackRegion.empty 1 1 0 1))
            (PackRegion.empty 1 0 1 2),
          [⟨"p", [0]⟩, ⟨"p", [1]⟩]⟩,
         [⟨"p", 1, 1, 0, 0, [(0, 0)]⟩, ⟨"p", 1, 1, 0, 1, [(0, 1)]⟩], 2) := by
    decide
  rw [create_atlas, hst]
  simp only [Option.map_some', Option.map_map]
  simp only [TextureAtlas.to_dict, dictLookup, uvEntry, storeGet, List.map_cons,
    List.map_nil, List.reverse_cons, List.reverse_nil, List.nil_append,
    List.cons_append, List.find?, Function.comp]
  norm_num

theorem atlasPack_textures (a : TextureAtlas) (s : Store) (t : Texture) :
    (a.pack s t).1.textures = a.textures ++ [t] := rfl

theorem packTextures_textures : ∀ (ts : List Texture) (a : TextureAtlas) (s : Store)
    {b : TextureAtlas} {u : Store}, packTextures a s ts = (b, u, none) →
    b.textures = a.textures ++ ts := by
  intro ts
  induction ts with
  | nil =>
    intro a s b u h
    obtain ⟨h1, -, -⟩ := Prod.mk.injEq .. ▸ h
    rw [← h1]
    simp
  | cons t ts ih =>
    intro a s b u h
    simp only [packTextures] at h
    rcases hp : a.pack s t with ⟨a1, s1, err⟩
    rw [hp] at h
    cases err with
    | none =>
      have ha1 : a1.textures = a.textures ++ [t] := by
        have h0 := atlasPack_textures a s t
        rw [hp] at h0
        exact h0
      have := ih a1 s1 h
      rw [this, ha1]
      simp
    | some e => simp at h

theorem packLoop_textures : ∀ (fuel : Nat) (s : Store) (ts : List Texture) (size : Nat)
    {a : TextureAtlas} {u : Store} {n : Nat},
    packLoop fuel s ts size = some (a, u, n) → a.textures = ts := by
  intro fuel
  induction fuel with
  | zero => intro s ts size a u n h; exact absurd h (by simp [packLoop])
  | succ k ih =>
    intro s ts size a u n h
    simp only [packLoop] at h
    rcases hp : packTextures ⟨size, size, PackRegion.empty 0 0 size size, []⟩ s ts
      with ⟨b, s', err⟩
    rw [hp] at h
    cases err with
    | none =>
      have hh := Option.some.inj h
      obtain ⟨h1, -⟩ := Prod.mk.injEq .. ▸ hh
      rw [← h1]
      have := packTextures_textures ts _ s hp
      simpa using this
    | some e => exact ih s' ts (size * 2) h

theorem insertPerimDesc_length (s : Store) (t : Texture) :
    ∀ l : List Texture, (insertPerimDesc s t l).length = l.length + 1 := by
  intro l
  induction l with
  | nil => rfl
  | cons u l ih =>
    simp only [insertPerimDesc]
    split
    · simp
    · simp [ih]

theorem sortPerimDesc_length (s : Store) :
    ∀ l : List Texture, (sortPerimDesc s l).length = l.length := by
  intro l
  induction l with
  | nil => rfl
  | cons t l ih => simp [sortPerimDesc, insertPerimDesc_length, ih]

theorem buildFrames_texs_length (images : String → Img) :
    ∀ (vals : List String) (i : Nat), (buildFrames i vals images).2.length = vals.length := by
  intro vals
  induction vals with
  | nil => intro i; rfl
  | cons p vals ih => intro i; simp [buildFrames, ih]

theorem lookup_map_of_nodup {α : Type} (f : String → α) :
    ∀ (dict : List (Nat × String)) (k : Nat) (p : String),
      (dict.map Prod.fst).Nodup → (k, p) ∈ dict →
      List.lookup k (dict.map fun e => (e.1, f e.2)) = some (f p) := by
  intro dict
  induction dict with
  | nil => intro k p _ hm; simp at hm
  | cons e dict ih =>
    intro k p hnd hm
    obtain ⟨e1, e2⟩ := e
    simp only [List.map_cons, List.nodup_cons] at hnd
    simp only [List.map_cons, List.lookup]
    by_cases hk : k = e1
    · subst hk
      simp only [beq_self_eq_true]
      rcases List.mem_cons.mp hm with heq | hmem
      · obtain ⟨-, rfl⟩ := Prod.mk.injEq .. ▸ heq
        rfl
      · exact absurd (List.mem_map.mpr ⟨(k, p), hmem, rfl⟩) hnd.1
    · have : (k == e1) = false := by simp [hk]
      rw [this]
      exact ih k p hnd.2 (by
        rcases List.mem_cons.mp hm with heq | hmem
        · exact absurd (congrArg Prod.fst heq) hk
        · exact hmem)

/-- C6 (amended): duplicate paths under two distinct keys each become their
own independently packed texture — the successful atlas holds exactly one
texture per input entry — but the returned UV table does NOT contain two
distinct entries for the two keys: `to_dict` builds a dict keyed by texture
name (the path), the last texture with that name wins, and the remap gives
both keys that single shared entry. -/
theorem duplicate_path_two_textures_one_uv (fuel : Nat) (dict : List (Nat × String))
    (images : String → Img) (k1 k2 : Nat) (p : String)
    (a : TextureAtlas) (s : Store) (n : Nat)
    (hnd : (dict.map Prod.fst).Nodup) (h1 : (k1, p) ∈ dict) (h2 : (k2, p) ∈ dict)
    (hres : create_atlas_state fuel dict images = some (a, s, n)) :
    a.textures.length = dict.length
    ∧ List.lookup k1 (dict.map fun e => (e.1, dictLookup (a.to_dict s) e.2))
        = List.lookup k2 (dict.map fun e => (e.1, dictLookup (a.to_dict s) e.2)) := by
  constructor
  · have ht := packLoop_textures fuel
      (buildFrames 0 (dict.map Prod.snd) images).1
      (sortPerimDesc (buildFrames 0 (dict.map Prod.snd) images).1
        (buildFrames 0 (dict.map Prod.snd) images).2)
      (initial_size
        (measureTextures (buildFrames 0 (dict.map Prod.snd) images).1
          (sortPerimDesc (buildFrames 0 (dict.map Prod.snd) images).1
            (buildFrames 0 (dict.map Prod.snd) images).2)).1
        (measureTextures (buildFrames 0 (dict.map Prod.snd) images).1
          (sortPerimDesc (buildFrames 0 (dict.map Prod.snd) images).1
            (buildFrames 0 (dict.map Prod.snd) images).2)).2.1
        (measureTextures (buildFrames 0 (dict.map Prod.snd) images).1
          (sortPerimDesc (buildFrames 0 (dict.map Prod.snd) images).1
            (buildFrames 0 (dict.map Prod.snd) images).2)).2.2) hres
    rw [ht, sortPerimDesc_length, buildFrames_texs_length]
    simp
  · rw [lookup_map_of_nodup (fun q => dictLookup (a.to_dict s) q) dict k1 p hnd h1,
        lookup_map_of_nodup (fun q => dictLookup (a.to_dict s) q) dict k2 p hnd h2]

theorem duplicate_path_two_textures_one_uv_witness :
    (⟨2, 2,
        PackRegion.node 0 0 2 2 1 1
          (PackRegion.node 0 1 1 1 1 1 (PackRegion.empty 0 2 1 0)
            (PackRegion.empty 1 1 0 1))
          (PackRegion.empty 1 0 1 2),
        [⟨"p", [0]⟩, ⟨"p", [1]⟩]⟩ : TextureAtlas).textures.length
      = [((1 : Nat), "p"), (2, "p")].length
    ∧ List.lookup 1 ([((1 : Nat), "p"), (2, "p")].map fun e =>
        (e.1, dictLookup
          (TextureAtlas.to_dict
            ⟨2, 2,
              PackRegion.node 0 0 2 2 1 1
                (PackRegion.node 0 1 1 1 1 1 (PackRegion.empty 0 2 1 0)
                  (PackRegion.empty 1 1 0 1))
                (PackRegion.empty 1 0 1 2),
              [⟨"p", [0]⟩, ⟨"p", [1]⟩]⟩
            [⟨"p", 1, 1, 0, 0, [(0, 0)]⟩, ⟨"p", 1, 1, 0, 1, [(0, 1)]⟩]) e.2))
      = List.lookup 2 ([((1 : Nat), "p"), (2, "p")].map fun e =>
        (e.1, dictLookup
          (TextureAtlas.to_dict
            ⟨2, 2,
              PackRegion.node 0 0 2 2 1 1
                (PackRegion.node 0 1 1 1 1 1 (PackRegion.empty 0 2 1 0)
                  (PackRegion.empty 1 1 0 1))
                (PackRegion.empty 1 0 1 2),
              [⟨"p", [0]⟩, ⟨"p", [1]⟩]⟩
            [⟨"p", 1, 1, 0, 0, [(0, 0)]⟩, ⟨"p", 1, 1, 0, 1, [(0, 1)]⟩]) e.2)) :=
  duplicate_path_two_textures_one_uv 8 [(1, "p"), (2, "p")]
    (fun _ => ⟨1, 1, fun _ _ _ => 0⟩) 1 2 "p"
    ⟨2, 2,
      PackRegion.node 0 0 2 2 1 1
        (PackRegion.node 0 1 1 1 1 1 (PackRegion.empty 0 2 1 0)
          (PackRegion.empty 1 1 0 1))
        (PackRegion.empty 1 0 1 2),
      [⟨"p", [0]⟩, ⟨"p", [1]⟩]⟩
    [⟨"p", 1, 1, 0, 0, [(0, 0)]⟩, ⟨"p", 1, 1, 0, 1, [(0, 1)]⟩] 2
    (by decide) (by decide) (by decide) (by decide)

theorem bitLenAux_lt : ∀ (fuel n : Nat), n ≤ fuel → n < 2 ^ bitLenAux fuel n := by
  intro fuel
  induction fuel with
  | zero =>
    intro n h
    have h0 : n = 0 := by omega
    subst h0
    simp [bitLenAux]
  | succ f ih =>
    intro n h
    simp only [bitLenAux]
    by_cases h0 : n = 0
    · subst h0; simp
    · rw [if_neg h0]
      have hrec := ih (n / 2) (by omega)
      rw [pow_succ]
      omega

theorem bitLenAux_le : ∀ (fuel n k : Nat), n ≤ fuel → n < 2 ^ k → bitLenAux fuel n ≤ k := by
  intro fuel
  induction fuel with
  | zero => intro n k h hk; simp [bitLenAux]
  | succ f ih =>
    intro n k h hk
    simp only [bitLenAux]
    by_cases h0 : n = 0
    · simp [h0]
    · rw [if_neg h0]
      cases k with
      | zero => simp at hk; omega
      | succ j =>
        rw [pow_succ] at hk
        have hj := ih (n / 2) j (by omega) (by omega)
        omega

theorem bitLen_lt (n : Nat) : n < 2 ^ bitLen n :=
  bitLenAux_lt n n le_rfl

theorem bitLen_le (n k : Nat) (h : n < 2 ^ k) : bitLen n ≤ k :=
  bitLenAux_le n n k le_rfl h

theorem ceilSqrtGo_spec (n : Nat) : ∀ (fuel m : Nat),
    (∀ k, k < m → ¬ n ≤ k * k) → n ≤ (m + fuel) * (m + fuel) →
    n ≤ ceilSqrtGo n fuel m * ceilSqrtGo n fuel m
    ∧ ∀ k, k < ceilSqrtGo n fuel m → ¬ n ≤ k * k := by
  intro fuel
  induction fuel with
  | zero =>
    intro m hbelow hbound
    simp only [ceilSqrtGo]
    exact ⟨by simpa using hbound, hbelow⟩
  | succ f ih =>
    intro m hbelow hbound
    simp only [ceilSqrtGo]
    by_cases hc : n ≤ m * m
    · rw [if_pos hc]; exact ⟨hc, hbelow⟩
    · rw [if_neg hc]
      apply ih (m + 1)
      · intro k hk
        rcases Nat.lt_succ_iff_lt_or_eq.mp hk with h | h
        · exact hbelow k h
        · subst h; exact hc
      · have harr : m + 1 + f = m + (f + 1) := by omega
        rw [harr]; exact hbound

theorem ceilSqrt_le_sq (n : Nat) : n ≤ ceilSqrt n * ceilSqrt n := by
  have hb : n ≤ (0 + n) * (0 + n) := by
    simp only [Nat.zero_add]
    cases n with
    | zero => simp
    | succ m => exact Nat.le_mul_of_pos_left _ (by omega)
  exact (ceilSqrtGo_spec n n 0 (by omega) hb).1

theorem ceilSqrt_min (n m : Nat) (h : n ≤ m * m) : ceilSqrt n ≤ m := by
  have hb : n ≤ (0 + n) * (0 + n) := by
    simp only [Nat.zero_add]
    cases n with
    | zero => simp
    | succ j => exact Nat.le_mul_of_pos_left _ (by omega)
  have hmin : ∀ k, k < ceilSqrt n → ¬ n ≤ k * k :=
    (ceilSqrtGo_spec n n 0 (by omega) hb).2
  by_contra hlt
  exact hmin m (by omega) h

theorem pow2Term_spec (px : Nat) (hpx : 1 ≤ px) :
    (∃ k, pow2Term px = 2 ^ k)
    ∧ ceilSqrt px ≤ pow2Term px
    ∧ ∀ m k, m = 2 ^ k → ceilSqrt px ≤ m → pow2Term px ≤ m := by
  have hc1 : 1 ≤ ceilSqrt px := by
    by_contra hlt
    have h0 : ceilSqrt px = 0 := by omega
    have := ceilSqrt_le_sq px
    rw [h0] at this
    omega
  have hcast : ((ceilSqrt px : Int) - 1).natAbs = ceilSqrt px - 1 := by omega
  have hform : pow2Term px = 2 ^ bitLen (ceilSqrt px - 1) := by
    rw [pow2Term, hcast, Nat.one_shiftLeft]
  refine ⟨⟨_, hform⟩, ?_, ?_⟩
  · rw [hform]
    have := bitLen_lt (ceilSqrt px - 1)
    omega
  · intro m k hm hle
    rw [hform, hm]
    apply Nat.pow_le_pow_right (by omega)
    apply bitLen_le
    have : ceilSqrt px ≤ 2 ^ k := by rw [← hm]; exact hle
    omega

theorem measureFrames_cons (s : Store) (i : Nat) (l : List Nat) (acc : Nat × Nat × Nat) :
    measureFrames s acc (i :: l)
      = measureFrames s
          (max (storeGet s i).height acc.1, max (storeGet s i).width acc.2.1,
           acc.2.2 + (storeGet s i).height * (storeGet s i).width) l := rfl

theorem measureFrames_append (s : Store) (l1 l2 : List Nat) (acc : Nat × Nat × Nat) :
    measureFrames s acc (l1 ++ l2) = measureFrames s (measureFrames s acc l1) l2 := by
  simp [measureFrames, List.foldl_append]

theorem measureFrames_split (s : Store) : ∀ (l : List Nat) (acc : Nat × Nat × Nat),
    measureFrames s acc l
      = (l.foldl (fun a i => max (storeGet s i).height a) acc.1,
         l.foldl (fun a i => max (storeGet s i).width a) acc.2.1,
         acc.2.2 + (l.map (fun i => (storeGet s i).height * (storeGet s i).width)).sum) := by
  intro l
  induction l with
  | nil => intro acc; simp [measureFrames]
  | cons i l ih =>
    intro acc
    rw [measureFrames_cons, ih]
    simp only [List.foldl_cons, List.map_cons, List.sum_cons]
    simp only [Prod.mk.injEq]
    exact ⟨trivial, trivial, by omega⟩

theorem measureTextures_flat (s : Store) (ts : List Texture) :
    measureTextures s ts = measureFrames s (0, 0, 0) (ts.flatMap Texture.frames) := by
  suffices h : ∀ (ts : List Texture) (acc : Nat × Nat × Nat),
      ts.foldl (fun a t => measureFrames s a t.frames) acc
        = measureFrames s acc (ts.flatMap Texture.frames) by
    exact h ts (0, 0, 0)
  intro ts
  induction ts with
  | nil => intro acc; rfl
  | cons t ts ih =>
    intro acc
    simp only [List.flatMap_cons, List.foldl_cons]
    rw [ih, measureFrames_append]

theorem foldl_max_spec (f : Nat → Nat) : ∀ (l : List Nat) (acc : Nat),
    (acc ≤ l.foldl (fun a i => max (f i) a) acc)
    ∧ (∀ i ∈ l, f i ≤ l.foldl (fun a i => max (f i) a) acc)
    ∧ (l.foldl (fun a i => max (f i) a) acc = acc
        ∨ ∃ i ∈ l, l.foldl (fun a i => max (f i) a) acc = f i) := by
  intro l
  induction l with
  | nil => intro acc; simp
  | cons j l ih =>
    intro acc
    simp only [List.foldl_cons]
    obtain ⟨ha, hb, hc⟩ := ih (max (f j) acc)
    refine ⟨le_trans (le_max_right _ _) ha, ?_, ?_⟩
    · intro i hi
      rcases List.mem_cons.mp hi with rfl | hi
      · exact le_trans (le_max_left _ _) ha
      · exact hb i hi
    · rcases hc with hc | ⟨i, hi, hc⟩
      · rcases max_choice (f j) acc with hm | hm
        · right; exact ⟨j, List.mem_cons_self .., by rw [hc, hm]⟩
        · left; rw [hc, hm]
      · right; exact ⟨i, List.mem_cons_of_mem _ hi, hc⟩

theorem insertPerimDesc_perm (s : Store) (t : Texture) :
    ∀ l : List Texture, (insertPerimDesc s t l).Perm (t :: l) := by
  intro l
  induction l with
  | nil => exact List.Perm.refl _
  | cons u l ih =>
    simp only [insertPerimDesc]
    split
    · exact List.Perm.refl _
    · exact (ih.cons u).trans (List.Perm.swap _ _ _)

theorem sortPerimDesc_perm (s : Store) :
    ∀ l : List Texture, (sortPerimDesc s l).Perm l := by
  intro l
  induction l with
  | nil => exact List.Perm.refl _
  | cons t l ih =>
    exact (insertPerimDesc_perm s t (sortPerimDesc s l)).trans (ih.cons t)

theorem buildFrames_store (images : String → Img) :
    ∀ (vals : List String) (i : Nat),
      (buildFrames i vals images).1
        = vals.map (fun p => ⟨p, (images p).width, (images p).height, 0, 0, []⟩) := by
  intro vals
  induction vals with
  | nil => intro i; rfl
  | cons p vals ih => intro i; simp [buildFrames, ih]

theorem buildFrames_flat (images : String → Img) :
    ∀ (vals : List String) (i : Nat),
      ((buildFrames i vals images).2.flatMap Texture.frames)
        = List.range' i vals.length := by
  intro vals
  induction vals with
  | nil => intro i; rfl
  | cons p vals ih =>
    intro i
    simp only [buildFrames, List.flatMap_cons, List.range'_succ]
    rw [ih]
    rfl

theorem storeGet_buildFrames (images : String → Img) (vals : List String) (j : Nat)
    (h : j < vals.length) :
    storeGet (buildFrames 0 vals images).1 j
      = ⟨vals[j], (images vals[j]).width, (images vals[j]).height, 0, 0, []⟩ := by
  rw [buildFrames_store]
  simp [storeGet, List.getD_eq_getElem?_getD, List.getElem?_eq_getElem
    (by simpa using h : j < (vals.map (fun p =>
      (⟨p, (images p).width, (images p).height, 0, 0, []⟩ : Frame))).length)]

theorem measure_characterization (dict : List (Nat × String)) (images : String → Img)
    (mh mw px : Nat)
    (hm : measureTextures (buildFrames 0 (dict.map Prod.snd) images).1
        (sortPerimDesc (buildFrames 0 (dict.map Prod.snd) images).1
          (buildFrames 0 (dict.map Prod.snd) images).2) = (mh, mw, px)) :
    (∀ e ∈ dict, (images e.2).height ≤ mh)
    ∧ (mh = 0 ∨ ∃ e ∈ dict, (images e.2).height = mh)
    ∧ (∀ e ∈ dict, (images e.2).width ≤ mw)
    ∧ (mw = 0 ∨ ∃ e ∈ dict, (images e.2).width = mw)
    ∧ px = (dict.map (fun e => (images e.2).height * (images e.2).width)).sum := by
  rw [measureTextures_flat, measureFrames_split] at hm
  set S := (buildFrames 0 (dict.map Prod.snd) images).1 with hSdef
  set L := ((sortPerimDesc S (buildFrames 0 (dict.map Prod.snd) images).2).flatMap
    Texture.frames) with hLdef
  have hflat : L.Perm (List.range' 0 dict.length) := by
    have hp := (sortPerimDesc_perm S
      (buildFrames 0 (dict.map Prod.snd) images).2).flatMap_right Texture.frames
    rw [buildFrames_flat] at hp
    simpa using hp
  have hmemL : ∀ j, j ∈ L ↔ j < dict.length := by
    intro j
    rw [hflat.mem_iff, List.mem_range']
    constructor
    · rintro ⟨i, hi, rfl⟩; omega
    · intro hj; exact ⟨j, hj, by omega⟩
  have hdim : ∀ j, ∀ hj : j < dict.length,
      storeGet S j = ⟨dict[j].2, (images dict[j].2).width, (images dict[j].2).height,
        0, 0, []⟩ := by
    intro j hj
    have hj' : j < (dict.map Prod.snd).length := by simpa using hj
    rw [hSdef, storeGet_buildFrames images (dict.map Prod.snd) j hj']
    simp
  obtain ⟨hmh, hmw, hpx⟩ :
      (L.foldl (fun a i => max (storeGet S i).height a) 0 = mh)
      ∧ (L.foldl (fun a i => max (storeGet S i).width a) 0 = mw)
      ∧ (0 + (L.map (fun i => (storeGet S i).height * (storeGet S i).width)).sum = px) := by
    obtain ⟨a1, a2⟩ := Prod.mk.injEq .. ▸ hm
    obtain ⟨b1, b2⟩ := Prod.mk.injEq .. ▸ a2
    exact ⟨a1, b1, b2⟩
  obtain ⟨-, hub_h, hex_h⟩ := foldl_max_spec (fun i => (storeGet S i).height) L 0
  obtain ⟨-, hub_w, hex_w⟩ := foldl_max_spec (fun i => (storeGet S i).width) L 0
  refine ⟨?_, ?_, ?_, ?_, ?_⟩
  · intro e he
    obtain ⟨j, hj, hje⟩ := List.mem_iff_getElem.mp he
    have h1 := hub_h j ((hmemL j).mpr hj)
    rw [hdim j hj] at h1
    rw [← hje]
    simpa [hmh] using h1
  · rcases hex_h with h0 | ⟨i, hi, hival⟩
    · left; omega
    · right
      have hilt := (hmemL i).mp hi
      refine ⟨dict[i], List.getElem_mem hilt, ?_⟩
      rw [hdim i hilt] at hival
      simp only at hival
      omega
  · intro e he
    obtain ⟨j, hj, hje⟩ := List.mem_iff_getElem.mp he
    have h1 := hub_w j ((hmemL j).mpr hj)
    rw [hdim j hj] at h1
    rw [← hje]
    simpa [hmw] using h1
  · rcases hex_w with h0 | ⟨i, hi, hival⟩
    · left; omega
    · right
      have hilt := (hmemL i).mp hi
      refine ⟨dict[i], List.getElem_mem hilt, ?_⟩
      rw [hdim i hilt] at hival
      simp only at hival
      omega
  · have h1 := (hflat.map
      (fun i => (storeGet S i).height * (storeGet S i).width)).sum_eq
    have h2 : ((List.range' 0 dict.length).map
        (fun i => (storeGet S i).height * (storeGet S i).width))
        = dict.map (fun e => (images e.2).height * (images e.2).width) := by
      apply List.ext_getElem
      · simp
      · intro t h1t h2t
        have htlt : t < dict.length := by simpa using h2t
        simp only [List.getElem_map, List.getElem_range']
        have ht0 : 0 + 1 * t = t := by omega
        rw [ht0, hdim t htlt]
    rw [← hpx, h1, h2]
    omega

/-- C7: for every non-empty input whose frames all have positive dimensions,
the initial candidate size computed by `create_atlas` equals
`max(maxFrameHeight, maxFrameWidth, P)`: the first two measured components
are exactly the maxima of the input frames' heights and widths, the third is
the total pixel area, `ceilSqrt` is the exact ceiling of the square root
(least `m` with `area ≤ m * m`), and `P` — the code's
`1 << (ceil(sqrt(pixels)) - 1).bit_length()` — is a power of two, is at
least `ceilSqrt pixels`, and is the least power of two that is at least
`ceilSqrt pixels`, i.e. `nextPowerOfTwo(ceil(sqrt(totalPixelArea)))`. -/
theorem initial_size_formula (dict : List (Nat × String)) (images : String → Img)
    (mh mw px : Nat)
    (hne : dict ≠ [])
    (hpos : ∀ e ∈ dict, 0 < (images e.2).width ∧ 0 < (images e.2).height)
    (hm : measureTextures (buildFrames 0 (dict.map Prod.snd) images).1
        (sortPerimDesc (buildFrames 0 (dict.map Prod.snd) images).1
          (buildFrames 0 (dict.map Prod.snd) images).2) = (mh, mw, px)) :
    initial_size mh mw px = max mh (max mw (pow2Term px))
    ∧ (∀ e ∈ dict, (images e.2).height ≤ mh)
    ∧ (∃ e ∈ dict, (images e.2).height = mh)
    ∧ (∀ e ∈ dict, (images e.2).width ≤ mw)
    ∧ (∃ e ∈ dict, (images e.2).width = mw)
    ∧ px = (dict.map (fun e => (images e.2).height * (images e.2).width)).sum
    ∧ (∃ k, pow2Term px = 2 ^ k)
    ∧ ceilSqrt px ≤ pow2Term px
    ∧ (∀ m k, m = 2 ^ k → ceilSqrt px ≤ m → pow2Term px ≤ m)
    ∧ px ≤ ceilSqrt px * ceilSqrt px
    ∧ (∀ m, px ≤ m * m → ceilSqrt px ≤ m) := by
  obtain ⟨hub_h, hex_h, hub_w, hex_w, hsum⟩ :=
    measure_characterization dict images mh mw px hm
  obtain ⟨e0, he0⟩ := List.exists_mem_of_ne_nil dict hne
  have hpx1 : 1 ≤ px := by
    rw [hsum]
    have hlt : 0 < (dict.map (fun e => (images e.2).height * (images e.2).width)).sum := by
      apply List.sum_pos
      · intro x hx
        obtain ⟨e, he, rfl⟩ := List.mem_map.mp hx
        exact Nat.mul_pos (hpos e he).2 (hpos e he).1
      · simpa using hne
    omega
  obtain ⟨hp1, hp2, hp3⟩ := pow2Term_spec px hpx1
  refine ⟨rfl, hub_h, ?_, hub_w, ?_, hsum, hp1, hp2, hp3, ceilSqrt_le_sq px,
    fun m hle => ceilSqrt_min px m hle⟩
  · rcases hex_h with h0 | hex
    · exact absurd (hub_h e0 he0) (by have := (hpos e0 he0).2; omega)
    · exact hex
  · rcases hex_w with h0 | hex
    · exact absurd (hub_w e0 he0) (by have := (hpos e0 he0).1; omega)
    · exact hex

theorem initial_size_formula_witness :
    initial_size 1 1 1 = max 1 (max 1 (pow2Term 1))
    ∧ (∀ e ∈ [((0 : Nat), "a")], ((fun _ => (⟨1, 1, fun _ _ _ => 0⟩ : Img)) e.2).height ≤ 1)
    ∧ (∃ e ∈ [((0 : Nat), "a")], ((fun _ => (⟨1, 1, fun _ _ _ => 0⟩ : Img)) e.2).height = 1)
    ∧ (∀ e ∈ [((0 : Nat), "a")], ((fun _ => (⟨1, 1, fun _ _ _ => 0⟩ : Img)) e.2).width ≤ 1)
    ∧ (∃ e ∈ [((0 : Nat), "a")], ((fun _ => (⟨1, 1, fun _ _ _ => 0⟩ : Img)) e.2).width = 1)
    ∧ 1 = ([((0 : Nat), "a")].map (fun e =>
        ((fun _ => (⟨1, 1, fun _ _ _ => 0⟩ : Img)) e.2).height
          * ((fun _ => (⟨1, 1, fun _ _ _ => 0⟩ : Img)) e.2).width)).sum
    ∧ (∃ k, pow2Term 1 = 2 ^ k)
    ∧ ceilSqrt 1 ≤ pow2Term 1
    ∧ (∀ m k, m = 2 ^ k → ceilSqrt 1 ≤ m → pow2Term 1 ≤ m)
    ∧ 1 ≤ ceilSqrt 1 * ceilSqrt 1
    ∧ (∀ m, 1 ≤ m * m → ceilSqrt 1 ≤ m) :=
  initial_size_formula [((0 : Nat), "a")] (fun _ => ⟨1, 1, fun _ _ _ => 0⟩) 1 1 1
    (by decide) (by decide) (by decide)
